import Mathlib

/-!
Verification of `src/output_codebase.py` (codebase_to_text_file).

The program walks a directory tree (`os.walk` with `topdown=True`), prunes
subdirectories whose name is in `IGNORED_DIRS`, skips files by name, by
lowercased extension and by being the output file itself, reads each surviving
file with `encoding="utf-8", errors="ignore"`, and appends a delimited record
to the output file, counting processed and skipped files.

The shallow embedding below models:
  - paths as lists of segments (`List String`); absolute paths are segment
    lists rooted at the filesystem root, so `os.path.abspath` of
    `os.path.join(dirpath, filename)` is list append (names yielded by
    `os.walk` never contain separators or dot segments);
  - the directory tree as a nested inductive `Entry`;
  - file bytes as `List Nat` and the `utf-8`/`errors="ignore"` decode as an
    executable decoder returning the list of decoded code points;
  - the run state (counters, output records, stderr diagnostics) as a
    structure threaded through the walk.
-/

/-- `IGNORED_DIRS` from `src/output_codebase.py`. -/
def IGNORED_DIRS : List String :=
  [".git", ".vscode", "__pycache__", "node_modules", "build", "dist",
   "venv", ".venv", "env", ".env", "target", "logs"]

/-- `IGNORED_FILES` from `src/output_codebase.py`. -/
def IGNORED_FILES : List String :=
  [".DS_Store", "package-lock.json", "yarn.lock", "poetry.lock", "Pipfile.lock"]

/-- `IGNORED_EXTENSIONS` from `src/output_codebase.py`. -/
def IGNORED_EXTENSIONS : List String :=
  [".pyc", ".pyo", ".class", ".o", ".so", ".dll", ".exe", ".log", ".lock",
   ".swp", ".swo",
   ".png", ".jpg", ".jpeg", ".gif", ".bmp", ".tiff",
   ".pdf", ".doc", ".docx", ".xls", ".xlsx", ".ppt", ".pptx",
   ".zip", ".tar", ".gz", ".rar", ".7z",
   ".mp3", ".wav", ".ogg",
   ".mp4", ".avi", ".mov", ".mkv"]

/-- The suffix of a character list starting at its last `'.'`, if any dot
occurs. Helper for `splitext_ext`. -/
def extFromLastDot : List Char → Option (List Char)
  | [] => Option.none
  | c :: cs =>
    match extFromLastDot cs with
    | Option.some e => Option.some e
    | Option.none => if c = '.' then Option.some (c :: cs) else Option.none

/-- The extension component of `os.path.splitext(filename)` for a plain file
name (no path separators): the suffix from the last dot, except that leading
dots of the name never start an extension (`splitext(".log") == (".log", "")`,
`splitext("a.log") == ("a", ".log")`, `splitext("..log") == ("..log", "")`). -/
def splitext_ext (name : String) : String :=
  match extFromLastDot (List.dropWhile (fun c => c = '.') name.data) with
  | Option.some e => String.mk e
  | Option.none => ""

/-- Whether a byte is a UTF-8 continuation byte (`0x80`–`0xBF`). -/
def isCont (b : Nat) : Bool := 0x80 ≤ b && b ≤ 0xBF

/-- Lower bound of the first continuation byte of a 3-byte UTF-8 sequence with
lead byte `b` (RFC 3629: `0xE0` requires `0xA0`–`0xBF`). -/
def cont3lo (b : Nat) : Nat := if b = 0xE0 then 0xA0 else 0x80

/-- Upper bound of the first continuation byte of a 3-byte UTF-8 sequence with
lead byte `b` (RFC 3629: `0xED` requires `0x80`–`0x9F`, excluding surrogates). -/
def cont3hi (b : Nat) : Nat := if b = 0xED then 0x9F else 0xBF

/-- Lower bound of the first continuation byte of a 4-byte UTF-8 sequence with
lead byte `b` (`0xF0` requires `0x90`–`0xBF`). -/
def cont4lo (b : Nat) : Nat := if b = 0xF0 then 0x90 else 0x80

/-- Upper bound of the first continuation byte of a 4-byte UTF-8 sequence with
lead byte `b` (`0xF4` requires `0x80`–`0x8F`, capping at `U+10FFFF`). -/
def cont4hi (b : Nat) : Nat := if b = 0xF4 then 0x8F else 0xBF

/-- UTF-8 decoding with `errors="ignore"`, as performed by
`open(file_path, "r", encoding="utf-8", errors="ignore")` followed by
`infile.read()`: bytes are decoded to a list of code points; on an invalid
sequence the maximal valid subpart (at least the offending lead byte) is
dropped silently and decoding resumes at the next byte; a truncated sequence
at end of input is dropped as well. Decoding never fails. -/
def utf8DecodeIgnore : List Nat → List Nat
  | [] => []
  | b :: bs =>
    if b ≤ 0x7F then b :: utf8DecodeIgnore bs
    else if 0xC2 ≤ b && b ≤ 0xDF then
      match bs with
      | [] => []
      | b1 :: r1 =>
        if isCont b1 then ((b - 0xC0) * 64 + (b1 - 0x80)) :: utf8DecodeIgnore r1
        else utf8DecodeIgnore (b1 :: r1)
    else if 0xE0 ≤ b && b ≤ 0xEF then
      match bs with
      | [] => []
      | b1 :: r1 =>
        if cont3lo b ≤ b1 && b1 ≤ cont3hi b then
          match r1 with
          | [] => []
          | b2 :: r2 =>
            if isCont b2 then
              ((b - 0xE0) * 4096 + (b1 - 0x80) * 64 + (b2 - 0x80)) :: utf8DecodeIgnore r2
            else utf8DecodeIgnore (b2 :: r2)
        else utf8DecodeIgnore (b1 :: r1)
    else if 0xF0 ≤ b && b ≤ 0xF4 then
      match bs with
      | [] => []
      | b1 :: r1 =>
        if cont4lo b ≤ b1 && b1 ≤ cont4hi b then
          match r1 with
          | [] => []
          | b2 :: r2 =>
            if isCont b2 then
              match r2 with
              | [] => []
              | b3 :: r3 =>
                if isCont b3 then
                  ((b - 0xF0) * 262144 + (b1 - 0x80) * 4096 + (b2 - 0x80) * 64 + (b3 - 0x80))
                    :: utf8DecodeIgnore r3
                else utf8DecodeIgnore (b3 :: r3)
            else utf8DecodeIgnore (b2 :: r2)
        else utf8DecodeIgnore (b1 :: r1)
    else utf8DecodeIgnore bs
termination_by l => l.length
decreasing_by all_goals simp [List.length_cons] <;> omega

/-- Modelled from the spec: the same UTF-8 decoder but with the policy the
spec describes as "undecodable bytes are silently substituted" (Python's
`errors="replace"`): each dropped error span yields the replacement character
`U+FFFD` instead of nothing. This definition exists only to compare the
spec's described policy with the code's actual `errors="ignore"` policy. -/
def utf8DecodeReplace : List Nat → List Nat
  | [] => []
  | b :: bs =>
    if b ≤ 0x7F then b :: utf8DecodeReplace bs
    else if 0xC2 ≤ b && b ≤ 0xDF then
      match bs with
      | [] => [0xFFFD]
      | b1 :: r1 =>
        if isCont b1 then ((b - 0xC0) * 64 + (b1 - 0x80)) :: utf8DecodeReplace r1
        else 0xFFFD :: utf8DecodeReplace (b1 :: r1)
    else if 0xE0 ≤ b && b ≤ 0xEF then
      match bs with
      | [] => [0xFFFD]
      | b1 :: r1 =>
        if cont3lo b ≤ b1 && b1 ≤ cont3hi b then
          match r1 with
          | [] => [0xFFFD]
          | b2 :: r2 =>
            if isCont b2 then
              ((b - 0xE0) * 4096 + (b1 - 0x80) * 64 + (b2 - 0x80)) :: utf8DecodeReplace r2
            else 0xFFFD :: utf8DecodeReplace (b2 :: r2)
        else 0xFFFD :: utf8DecodeReplace (b1 :: r1)
    else if 0xF0 ≤ b && b ≤ 0xF4 then
      match bs with
      | [] => [0xFFFD]
      | b1 :: r1 =>
        if cont4lo b ≤ b1 && b1 ≤ cont4hi b then
          match r1 with
          | [] => [0xFFFD]
          | b2 :: r2 =>
            if isCont b2 then
              match r2 with
              | [] => [0xFFFD]
              | b3 :: r3 =>
                if isCont b3 then
                  ((b - 0xF0) * 262144 + (b1 - 0x80) * 4096 + (b2 - 0x80) * 64 + (b3 - 0x80))
                    :: utf8DecodeReplace r3
                else 0xFFFD :: utf8DecodeReplace (b3 :: r3)
            else 0xFFFD :: utf8DecodeReplace (b2 :: r2)
        else 0xFFFD :: utf8DecodeReplace (b1 :: r1)
    else 0xFFFD :: utf8DecodeReplace bs
termination_by l => l.length
decreasing_by all_goals simp [List.length_cons] <;> omega

/-- The string produced by reading a file whose raw bytes are `bytes` with
`encoding="utf-8", errors="ignore"`. The decoder only emits Unicode scalar
values, so `Char.ofNat` is used on valid code points. -/
def decodeToString (bytes : List Nat) : String :=
  String.mk ((utf8DecodeIgnore bytes).map (fun n => Char.ofNat n))

/-- `str.lower()` as applied to `extension` in the walk loop, restricted to
ASCII case mapping: every string in `IGNORED_EXTENSIONS` is ASCII, so on the
alphabet relevant to the membership test this agrees with Python. -/
def lowerAscii (s : String) : String :=
  String.mk (s.data.map (fun c => if 'A' ≤ c ∧ c ≤ 'Z' then Char.ofNat (c.toNat + 32) else c))

/-- A directory-tree entry as seen by `os.walk`: a regular file (with its
name, raw bytes, and whether reading it succeeds — `readable := false` models
per-file I/O failures such as permission errors) or a subdirectory with its
own listing. Listing order is the order of the list. -/
inductive Entry where
  | file : String → List Nat → Bool → Entry
  | dir : String → List Entry → Entry

/-- A file as an element of `filenames` in the walk loop. -/
structure FileNode where
  name : String
  bytes : List Nat
  readable : Bool

/-- One record written to the output file for one processed file:
the relative-path segments of the file under the input root, and the decoded
content string that was written between the markers. -/
structure OutRecord where
  relSegs : List String
  content : String

/-- `relative_path = os.path.relpath(file_path, abs_input_dir)`: the segments
joined with the separator. -/
def OutRecord.relPath (r : OutRecord) : String := String.intercalate "/" r.relSegs

/-- The mutable state of one `combine_files` run: the two counters, the
records written so far (in write order), and the stderr diagnostic lines. -/
structure RunState where
  processed : Nat
  skipped : Nat
  records : List OutRecord
  diag : List String

/-- The ambient paths of one run: `abs_input_dir` and `abs_output_file` from
`combine_files`, as absolute segment lists. -/
structure Cfg where
  rootAbs : List String
  outAbs : List String

/-- The `filenames` component of one `os.walk` step: the file entries of a
directory listing, in order. -/
def filesOf : List Entry → List FileNode
  | [] => []
  | Entry.file n b r :: rest => { name := n, bytes := b, readable := r } :: filesOf rest
  | Entry.dir _ _ :: rest => filesOf rest

/-- `os.path.abspath(os.path.join(dirpath, filename))` where `dirpath` is the
absolute root extended by the relative segments `rel`. -/
def filePathAbs (cfg : Cfg) (rel : List String) (name : String) : List String :=
  cfg.rootAbs ++ rel ++ [name]

/-- Render an absolute segment list the way Python prints the path. -/
def renderAbsPath (segs : List String) : String :=
  "/" ++ String.intercalate "/" segs

/-- The stderr line `f"Error reading file {file_path}: {e}"`. -/
def readErrMsg (cfg : Cfg) (rel : List String) (name : String) (e : String) : String :=
  "Error reading file " ++ renderAbsPath (filePathAbs cfg rel name) ++ ": " ++ e

/-- `open(file_path, "r", encoding="utf-8", errors="ignore")` + `read()`:
succeeds with the permissively decoded content whenever the file is readable,
and raises (modelled as `Except.error`) on an I/O failure. Decoding itself
never raises. -/
def readFileNode (f : FileNode) : Except String String :=
  if f.readable then Except.ok (decodeToString f.bytes)
  else Except.error "read error"

/-- The body of the inner `for filename in filenames` loop of
`combine_files`, for one file `f` in the directory at relative segments
`rel`: skip if the name is in `IGNORED_FILES`; else skip if the lowercased
`splitext` extension is in `IGNORED_EXTENSIONS`; else skip if the absolute
path equals the output file's absolute path; else read the file and either
append its record and bump `processed_files`, or (on a read error) report to
stderr and bump `skipped_files`. -/
def processFilename (cfg : Cfg) (rel : List String) (f : FileNode) (st : RunState) : RunState :=
  if f.name ∈ IGNORED_FILES then
    { st with skipped := st.skipped + 1 }
  else if lowerAscii (splitext_ext f.name) ∈ IGNORED_EXTENSIONS then
    { st with skipped := st.skipped + 1 }
  else if filePathAbs cfg rel f.name = cfg.outAbs then
    { st with skipped := st.skipped + 1 }
  else
    match readFileNode f with
    | Except.ok content =>
      { st with
          processed := st.processed + 1,
          records := st.records ++ [{ relSegs := rel ++ [f.name], content := content }] }
    | Except.error e =>
      { st with
          skipped := st.skipped + 1,
          diag := st.diag ++ [readErrMsg cfg rel f.name e] }

/-- The inner loop over all of `filenames`, in listing order. -/
def processFiles (cfg : Cfg) (rel : List String) : List FileNode → RunState → RunState
  | [], st => st
  | f :: fs, st => processFiles cfg rel fs (processFilename cfg rel f st)

/-- Descent of `os.walk(..., topdown=True)` into the subdirectory entries of
a directory listing, after `dirnames[:] = [d for d in dirnames if d not in
IGNORED_DIRS]`: subdirectories whose name is in `IGNORED_DIRS` are pruned
and never visited; each surviving subdirectory is visited in order, its own
files processed first and then its subdirectories recursively. -/
def walkSubs (cfg : Cfg) (rel : List String) : List Entry → RunState → RunState
  | [], st => st
  | Entry.file _ _ _ :: rest, st => walkSubs cfg rel rest st
  | Entry.dir n cs :: rest, st =>
    if n ∈ IGNORED_DIRS then walkSubs cfg rel rest st
    else
      walkSubs cfg rel rest
        (walkSubs cfg (rel ++ [n]) cs
          (processFiles cfg (rel ++ [n]) (filesOf cs) st))
termination_by es => sizeOf es

/-- One `os.walk` visit of the directory whose listing is `es`, at relative
segments `rel`: process this directory's files, then descend into its
non-pruned subdirectories. -/
def walkDir (cfg : Cfg) (rel : List String) (es : List Entry) (st : RunState) : RunState :=
  walkSubs cfg rel es (processFiles cfg rel (filesOf es) st)

/-- `combine_files(input_dir, output_file)` restricted to its observable
effects: counters, output records and stderr lines, starting from the zero
state at the input root. -/
def combine_files (cfg : Cfg) (tree : List Entry) : RunState :=
  walkDir cfg [] tree { processed := 0, skipped := 0, records := [], diag := [] }

/-- The exact text the three `outfile.write` calls of the success branch
append for one record. -/
def renderRecord (r : OutRecord) : String :=
  "--- START FILE: " ++ r.relPath ++ " ---\n" ++ r.content ++
    "\n--- END FILE: " ++ r.relPath ++ " ---\n\n"

/-- The full text written to the output file by a run that opens the output
successfully: header lines, the records in write order, and the footer. -/
def outputText (cfg : Cfg) (tree : List Entry) : String :=
  "# Combined content from directory: " ++ renderAbsPath cfg.rootAbs ++ "\n" ++
  "# Output file: " ++ renderAbsPath cfg.outAbs ++ "\n" ++
  "# --- START OF COMBINED CONTENT ---\n\n" ++
  String.join ((combine_files cfg tree).records.map renderRecord) ++
  "# --- END OF COMBINED CONTENT ---\n"

/-- What the `input_dir` argument of the CLI names on the filesystem:
an existing directory (with its listing), an existing non-directory, or
nothing. -/
inductive FSObject where
  | directory : List Entry → FSObject
  | regularFile : FSObject
  | missing : FSObject

/-- `os.path.isdir(args.input_dir)`. -/
def isdir : FSObject → Bool
  | FSObject.directory _ => true
  | FSObject.regularFile => false
  | FSObject.missing => false

/-- The `__main__` block after argument parsing: if `input_dir` is not a
directory, print an error and `sys.exit(1)` without calling `combine_files`
(so no output file is written, modelled as `Option.none`); otherwise run
`combine_files` and fall off the end of the script (exit code 0). Returns
(exit code, content written to the output file if any). -/
def mainRun (cfg : Cfg) (obj : FSObject) : Nat × Option String :=
  if isdir obj = false then (1, Option.none)
  else
    match obj with
    | FSObject.directory es => (0, Option.some (outputText cfg es))
    | FSObject.regularFile => (1, Option.none)
    | FSObject.missing => (1, Option.none)

/-- The number of filesystem entries (files and subdirectories alike) listed
in the directories the walk visits: every entry of a visited listing counts,
including a pruned subdirectory itself, but nothing inside a pruned
subdirectory is counted. This is the literal reading of the spec's "total
number of filesystem entries encountered under non-ignored directories". -/
def entriesEncountered : List Entry → Nat
  | [] => 0
  | Entry.file _ _ _ :: rest => 1 + entriesEncountered rest
  | Entry.dir n cs :: rest =>
    if n ∈ IGNORED_DIRS then 1 + entriesEncountered rest
    else 1 + entriesEncountered cs + entriesEncountered rest
termination_by es => sizeOf es

/-- The number of files (non-directory entries) listed in the directories the
walk visits: files directly in a visited listing, plus files anywhere under
its non-pruned subdirectories. -/
def filesEncountered : List Entry → Nat
  | [] => 0
  | Entry.file _ _ _ :: rest => 1 + filesEncountered rest
  | Entry.dir n cs :: rest =>
    if n ∈ IGNORED_DIRS then filesEncountered rest
    else filesEncountered cs + filesEncountered rest
termination_by es => sizeOf es

/-- The files under the subdirectory entries of a listing only (excluding the
files directly in the listing): what `walkSubs` itself is responsible for. -/
def subtreeFilesCount : List Entry → Nat
  | [] => 0
  | Entry.file _ _ _ :: rest => subtreeFilesCount rest
  | Entry.dir n cs :: rest =>
    (if n ∈ IGNORED_DIRS then 0 else filesEncountered cs) + subtreeFilesCount rest

theorem extFromLastDot_eq_none (l : List Char) (h : '.' ∉ l) :
    extFromLastDot l = Option.none := by
  induction l with
  | nil => rfl
  | cons c cs ih =>
    have hc : c ≠ '.' := fun hc => h (hc ▸ List.mem_cons_self c cs)
    have hcs : '.' ∉ cs := fun hm => h (List.mem_cons_of_mem c hm)
    simp [extFromLastDot, ih hcs, hc]

theorem dropWhile_dot_eq_self (l : List Char) (h : '.' ∉ l) :
    List.dropWhile (fun c => c = '.') l = l := by
  cases l with
  | nil => rfl
  | cons c cs =>
    have hc : ¬(c = '.') := fun hc => h (hc ▸ List.mem_cons_self c cs)
    simp [List.dropWhile, hc]

theorem splitext_ext_of_leading_dot (name : String) (rest : List Char)
    (hd : name.data = '.' :: rest) (h : '.' ∉ rest) :
    splitext_ext name = "" := by
  unfold splitext_ext
  rw [hd]
  have h1 : List.dropWhile (fun c => c = '.') ('.' :: rest) = rest := by
    rw [List.dropWhile_cons]
    simp [dropWhile_dot_eq_self rest h]
  rw [h1, extFromLastDot_eq_none rest h]

theorem processFilename_count (cfg : Cfg) (rel : List String) (f : FileNode) (st : RunState) :
    (processFilename cfg rel f st).processed + (processFilename cfg rel f st).skipped
      = st.processed + st.skipped + 1 := by
  unfold processFilename
  repeat' split
  all_goals simp
  all_goals omega

theorem processFiles_count (cfg : Cfg) (rel : List String) (fs : List FileNode) :
    ∀ st : RunState,
      (processFiles cfg rel fs st).processed + (processFiles cfg rel fs st).skipped
        = st.processed + st.skipped + fs.length := by
  induction fs with
  | nil => intro st; simp [processFiles]
  | cons f fs ih =>
    intro st
    simp only [processFiles]
    rw [ih]
    have h := processFilename_count cfg rel f st
    simp only [List.length_cons]
    omega

theorem filesEncountered_eq (es : List Entry) :
    filesEncountered es = (filesOf es).length + subtreeFilesCount es := by
  induction es with
  | nil => simp [filesEncountered, filesOf, subtreeFilesCount]
  | cons e rest ih =>
    cases e with
    | file n b r =>
      simp [filesEncountered, filesOf, subtreeFilesCount, ih]
      omega
    | dir n cs =>
      by_cases h : n ∈ IGNORED_DIRS
      · simp [filesEncountered, filesOf, subtreeFilesCount, h, ih]
      · simp [filesEncountered, filesOf, subtreeFilesCount, h, ih]
        omega

theorem walkSubs_count (cfg : Cfg) (rel : List String) (es : List Entry) (st : RunState) :
    (walkSubs cfg rel es st).processed + (walkSubs cfg rel es st).skipped
      = st.processed + st.skipped + subtreeFilesCount es := by
  induction rel, es, st using walkSubs.induct cfg with
  | case1 rel st => simp [walkSubs, subtreeFilesCount]
  | case2 rel a b c rest st ih => simp [walkSubs, subtreeFilesCount, ih]
  | case3 rel n cs rest st h ih =>
    simp [walkSubs, subtreeFilesCount, h, ih]
  | case4 rel n cs rest st h ih1 ih2 =>
    have hpf := processFiles_count cfg (rel ++ [n]) (filesOf cs) st
    have hfe := filesEncountered_eq cs
    simp only [walkSubs, if_neg h] at ih1 ih2 ⊢
    simp only [subtreeFilesCount, if_neg h]
    omega

theorem walkDir_count (cfg : Cfg) (rel : List String) (es : List Entry) (st : RunState) :
    (walkDir cfg rel es st).processed + (walkDir cfg rel es st).skipped
      = st.processed + st.skipped + filesEncountered es := by
  unfold walkDir
  rw [walkSubs_count, processFiles_count, filesEncountered_eq]
  omega

theorem processFilename_records (cfg : Cfg) (rel : List String) (f : FileNode) (st : RunState)
    (r : OutRecord) (hr : r ∈ (processFilename cfg rel f st).records) :
    r ∈ st.records ∨ cfg.rootAbs ++ r.relSegs ≠ cfg.outAbs := by
  unfold processFilename at hr
  split at hr
  · exact Or.inl hr
  · split at hr
    · exact Or.inl hr
    · split at hr
      · exact Or.inl hr
      · rename_i hout
        split at hr
        · simp only [List.mem_append, List.mem_singleton] at hr
          rcases hr with hr | hr
          · exact Or.inl hr
          · refine Or.inr ?_
            subst hr
            simpa [filePathAbs, List.append_assoc] using hout
        · exact Or.inl hr

theorem processFiles_records (cfg : Cfg) (rel : List String) (fs : List FileNode) :
    ∀ (st : RunState) (r : OutRecord), r ∈ (processFiles cfg rel fs st).records →
      r ∈ st.records ∨ cfg.rootAbs ++ r.relSegs ≠ cfg.outAbs := by
  induction fs with
  | nil => intro st r hr; exact Or.inl hr
  | cons f fs ih =>
    intro st r hr
    simp only [processFiles] at hr
    rcases ih _ r hr with h | h
    · exact processFilename_records cfg rel f st r h
    · exact Or.inr h

theorem walkSubs_records (cfg : Cfg) (rel : List String) (es : List Entry) (st : RunState) :
    ∀ r : OutRecord, r ∈ (walkSubs cfg rel es st).records →
      r ∈ st.records ∨ cfg.rootAbs ++ r.relSegs ≠ cfg.outAbs := by
  induction rel, es, st using walkSubs.induct cfg with
  | case1 rel st =>
    intro r hr
    simp only [walkSubs] at hr
    exact Or.inl hr
  | case2 rel a b c rest st ih =>
    intro r hr
    simp only [walkSubs] at hr
    exact ih r hr
  | case3 rel n cs rest st h ih =>
    intro r hr
    simp only [walkSubs, if_pos h] at hr
    exact ih r hr
  | case4 rel n cs rest st h ih1 ih2 =>
    intro r hr
    simp only [walkSubs, if_neg h] at hr
    rcases ih2 r hr with h1 | h1
    · rcases ih1 r h1 with h2 | h2
      · exact processFiles_records cfg (rel ++ [n]) (filesOf cs) st r h2
      · exact Or.inr h2
    · exact Or.inr h1

/-- Claim C1: every subdirectory whose name is in the ignored-directories set
is pruned from the walk before descending (`dirnames[:] = [d for d in
dirnames if d not in IGNORED_DIRS]`): the walk over a listing containing
`Entry.dir n cs` equals the walk with that subdirectory entry removed, for
every contents `cs`, so no file beneath that subdirectory, at any depth, is
read, counted, or given a start-marker record in the output — the result
does not depend on `cs` at all. -/
theorem ignored_dir_pruned_before_descending (cfg : Cfg) (rel : List String)
    (n : String) (cs rest : List Entry) (st : RunState) (h : n ∈ IGNORED_DIRS) :
    walkSubs cfg rel (Entry.dir n cs :: rest) st = walkSubs cfg rel rest st := by
  simp only [walkSubs, if_pos h]

/-- Witness for C1: a `.git` subdirectory containing a file that matches no
other ignore rule contributes nothing to the walk. -/
theorem ignored_dir_pruned_before_descending_witness :
    ".git" ∈ IGNORED_DIRS ∧
    walkSubs { rootAbs := ["root"], outAbs := ["out.txt"] } []
        [Entry.dir ".git" [Entry.file "config" [0x61] true]]
        { processed := 0, skipped := 0, records := [], diag := [] }
      = walkSubs { rootAbs := ["root"], outAbs := ["out.txt"] } [] []
        { processed := 0, skipped := 0, records := [], diag := [] } :=
  ⟨by decide,
   ignored_dir_pruned_before_descending { rootAbs := ["root"], outAbs := ["out.txt"] } []
     ".git" [Entry.file "config" [0x61] true] []
     { processed := 0, skipped := 0, records := [], diag := [] } (by decide)⟩

/-- Claim C2: the three file filters are applied in exactly this order —
ignored file name, then lowercased extension, then output-file path — and
each skip only increments the skip counter, without reading the file (the
skip results are independent of `bytes` and `readable`, over which the
theorem quantifies); a file passing all three filters is read and its
record or read-error handled. -/
theorem file_filters_apply_in_order (cfg : Cfg) (rel : List String)
    (name : String) (bytes : List Nat) (readable : Bool) (st : RunState) :
    (name ∈ IGNORED_FILES →
      processFilename cfg rel { name := name, bytes := bytes, readable := readable } st
        = { st with skipped := st.skipped + 1 }) ∧
    (name ∉ IGNORED_FILES → lowerAscii (splitext_ext name) ∈ IGNORED_EXTENSIONS →
      processFilename cfg rel { name := name, bytes := bytes, readable := readable } st
        = { st with skipped := st.skipped + 1 }) ∧
    (name ∉ IGNORED_FILES → lowerAscii (splitext_ext name) ∉ IGNORED_EXTENSIONS →
      filePathAbs cfg rel name = cfg.outAbs →
      processFilename cfg rel { name := name, bytes := bytes, readable := readable } st
        = { st with skipped := st.skipped + 1 }) ∧
    (name ∉ IGNORED_FILES → lowerAscii (splitext_ext name) ∉ IGNORED_EXTENSIONS →
      filePathAbs cfg rel name ≠ cfg.outAbs →
      processFilename cfg rel { name := name, bytes := bytes, readable := readable } st
        = match readFileNode { name := name, bytes := bytes, readable := readable } with
          | Except.ok content =>
            { st with processed := st.processed + 1,
                      records := st.records ++
                        [{ relSegs := rel ++ [name], content := content }] }
          | Except.error e =>
            { st with skipped := st.skipped + 1,
                      diag := st.diag ++ [readErrMsg cfg rel name e] }) := by
  refine ⟨fun h1 => ?_, fun h1 h2 => ?_, fun h1 h2 h3 => ?_, fun h1 h2 h3 => ?_⟩
  · simp only [processFilename]
    rw [if_pos h1]
  · simp only [processFilename]
    rw [if_neg h1, if_pos h2]
  · simp only [processFilename]
    rw [if_neg h1, if_neg h2, if_pos h3]
  · simp only [processFilename]
    rw [if_neg h1, if_neg h2, if_neg h3]

/-- Witness for C2, one concrete input per branch: a name in `IGNORED_FILES`
(even unreadable: no read happens), an uppercase `.PNG` extension, the
output file itself, and a candidate that is read and processed. -/
theorem file_filters_apply_in_order_witness :
    processFilename { rootAbs := ["root"], outAbs := ["root", "combined_code.txt"] } []
        { name := ".DS_Store", bytes := [0x61], readable := false }
        { processed := 0, skipped := 0, records := [], diag := [] }
      = { processed := 0, skipped := 1, records := [], diag := [] } ∧
    processFilename { rootAbs := ["root"], outAbs := ["root", "combined_code.txt"] } []
        { name := "logo.PNG", bytes := [0x61], readable := false }
        { processed := 0, skipped := 0, records := [], diag := [] }
      = { processed := 0, skipped := 1, records := [], diag := [] } ∧
    processFilename { rootAbs := ["root"], outAbs := ["root", "combined_code.txt"] } []
        { name := "combined_code.txt", bytes := [0x61], readable := true }
        { processed := 0, skipped := 0, records := [], diag := [] }
      = { processed := 0, skipped := 1, records := [], diag := [] } ∧
    processFilename { rootAbs := ["root"], outAbs := ["root", "combined_code.txt"] } []
        { name := "main.py", bytes := [0x61], readable := true }
        { processed := 0, skipped := 0, records := [], diag := [] }
      = { processed := 1, skipped := 0,
          records := [{ relSegs := ["main.py"], content := decodeToString [0x61] }],
          diag := [] } :=
  ⟨(file_filters_apply_in_order _ _ _ _ _ _).1 (by decide),
   (file_filters_apply_in_order _ _ _ _ _ _).2.1 (by decide) (by decide),
   (file_filters_apply_in_order _ _ _ _ _ _).2.2.1 (by decide) (by decide) rfl,
   (file_filters_apply_in_order _ _ _ _ _ _).2.2.2 (by decide) (by decide) (by decide)⟩

/-- Claim C3: for every successfully read candidate file, the run state
gains exactly one record (relative path = the walk's segments joined by the
separator, content = the string the read returned, unchanged) and
`processed_files` is incremented by one while `skipped_files`, and the
diagnostics, are untouched; and the text of that record is exactly the
start-marker line with the relative path, the content, the end-marker line
with the same relative path, and the blank separator line (the end-marker
write starts with the `\n` that the spec's own template places between
content and end marker). -/
theorem processed_record_exact (cfg : Cfg) (rel : List String) (name : String)
    (bytes : List Nat) (st : RunState)
    (h1 : name ∉ IGNORED_FILES)
    (h2 : lowerAscii (splitext_ext name) ∉ IGNORED_EXTENSIONS)
    (h3 : filePathAbs cfg rel name ≠ cfg.outAbs) :
    processFilename cfg rel { name := name, bytes := bytes, readable := true } st
      = { st with processed := st.processed + 1,
                  records := st.records ++
                    [{ relSegs := rel ++ [name], content := decodeToString bytes }] } ∧
    renderRecord { relSegs := rel ++ [name], content := decodeToString bytes }
      = "--- START FILE: " ++ String.intercalate "/" (rel ++ [name]) ++ " ---\n"
          ++ decodeToString bytes
          ++ "\n--- END FILE: " ++ String.intercalate "/" (rel ++ [name]) ++ " ---\n\n" := by
  constructor
  · simp only [processFilename]
    rw [if_neg h1, if_neg h2, if_neg h3]
    rfl
  · rfl

/-- Witness for C3 at a concrete candidate `src/main.py` with content "hi". -/
theorem processed_record_exact_witness :
    processFilename { rootAbs := ["root"], outAbs := ["out.txt"] } ["src"]
        { name := "main.py", bytes := [0x68, 0x69], readable := true }
        { processed := 0, skipped := 0, records := [], diag := [] }
      = { processed := 1, skipped := 0,
          records := [{ relSegs := ["src", "main.py"], content := decodeToString [0x68, 0x69] }],
          diag := [] } ∧
    renderRecord { relSegs := ["src", "main.py"], content := decodeToString [0x68, 0x69] }
      = "--- START FILE: src/main.py ---\nhi\n--- END FILE: src/main.py ---\n\n" := by
  have h := processed_record_exact { rootAbs := ["root"], outAbs := ["out.txt"] } ["src"]
    "main.py" [0x68, 0x69] { processed := 0, skipped := 0, records := [], diag := [] }
    (by decide) (by decide) (by decide)
  have hcontent : decodeToString [0x68, 0x69] = "hi" := by
    have hdec : utf8DecodeIgnore [0x68, 0x69] = [0x68, 0x69] := by
      simp [utf8DecodeIgnore]
    unfold decodeToString
    rw [hdec]
    rfl
  exact ⟨h.1, h.2.trans (by rw [hcontent]; rfl)⟩

/-- Claim C4: if the output file's absolute path lies inside the input tree
(`outAbs = rootAbs ++ osegs`), then no record of the run is the output file:
no start-marker with its relative path is ever written, so its content is
never embedded in itself. The guard compares the candidate's absolute path
with the output file's absolute path. -/
theorem output_file_never_recorded (cfg : Cfg) (tree : List Entry)
    (osegs : List String) (r : OutRecord)
    (hin : cfg.outAbs = cfg.rootAbs ++ osegs)
    (hr : r ∈ (combine_files cfg tree).records) :
    r.relSegs ≠ osegs := by
  unfold combine_files walkDir at hr
  rcases walkSubs_records cfg [] tree _ r hr with h | h
  · rcases processFiles_records cfg [] (filesOf tree) _ r h with h2 | h2
    · simp at h2
    · intro he
      exact h2 (by rw [he, ← hin])
  · intro he
    exact h (by rw [he, ← hin])

/-- Witness for C4: a run whose output file `combined_code.txt` sits at the
top of the input tree; the single record produced (for `a.txt`) is not the
output file. -/
theorem output_file_never_recorded_witness :
    ({ rootAbs := ["root"], outAbs := ["root", "combined_code.txt"] } : Cfg).outAbs
      = ({ rootAbs := ["root"], outAbs := ["root", "combined_code.txt"] } : Cfg).rootAbs
          ++ ["combined_code.txt"] ∧
    ({ relSegs := ["a.txt"], content := decodeToString [0x61] } : OutRecord).relSegs
      ≠ ["combined_code.txt"] := by
  have hr : ({ relSegs := ["a.txt"], content := decodeToString [0x61] } : OutRecord) ∈
      (combine_files { rootAbs := ["root"], outAbs := ["root", "combined_code.txt"] }
        [Entry.file "a.txt" [0x61] true, Entry.file "combined_code.txt" [] true]).records := by
    simp [combine_files, walkDir, walkSubs, processFiles, processFilename, readFileNode,
          filesOf, filePathAbs, splitext_ext, extFromLastDot, lowerAscii,
          IGNORED_FILES, IGNORED_EXTENSIONS, IGNORED_DIRS]
  exact ⟨rfl,
    output_file_never_recorded
      { rootAbs := ["root"], outAbs := ["root", "combined_code.txt"] }
      [Entry.file "a.txt" [0x61] true, Entry.file "combined_code.txt" [] true]
      ["combined_code.txt"] _ rfl hr⟩

/-- Claim C5: for a candidate file whose read raises an I/O failure, the
error line is appended to the diagnostic stream, the skip counter is
incremented, `processed` and the records are untouched (no start-marker or
partial record), and processing continues with the next file in the loop —
the failure never escapes `processFiles`. -/
theorem read_failure_skips_and_continues (cfg : Cfg) (rel : List String)
    (name : String) (bytes : List Nat) (st : RunState) (fs : List FileNode)
    (h1 : name ∉ IGNORED_FILES)
    (h2 : lowerAscii (splitext_ext name) ∉ IGNORED_EXTENSIONS)
    (h3 : filePathAbs cfg rel name ≠ cfg.outAbs) :
    processFilename cfg rel { name := name, bytes := bytes, readable := false } st
      = { st with skipped := st.skipped + 1,
                  diag := st.diag ++ [readErrMsg cfg rel name "read error"] } ∧
    processFiles cfg rel ({ name := name, bytes := bytes, readable := false } :: fs) st
      = processFiles cfg rel fs
          { st with skipped := st.skipped + 1,
                    diag := st.diag ++ [readErrMsg cfg rel name "read error"] } := by
  have hp : processFilename cfg rel { name := name, bytes := bytes, readable := false } st
      = { st with skipped := st.skipped + 1,
                  diag := st.diag ++ [readErrMsg cfg rel name "read error"] } := by
    simp only [processFilename]
    rw [if_neg h1, if_neg h2, if_neg h3]
    rfl
  exact ⟨hp, by simp only [processFiles, hp]⟩

/-- Witness for C5: an unreadable `locked.txt` is skipped with a stderr line
and the loop goes on to the rest of the files. -/
theorem read_failure_skips_and_continues_witness :
    processFilename { rootAbs := ["root"], outAbs := ["out.txt"] } []
        { name := "locked.txt", bytes := [0x61], readable := false }
        { processed := 0, skipped := 0, records := [], diag := [] }
      = { processed := 0, skipped := 1, records := [],
          diag := ["Error reading file /root/locked.txt: read error"] } ∧
    processFiles { rootAbs := ["root"], outAbs := ["out.txt"] } []
        [{ name := "locked.txt", bytes := [0x61], readable := false },
         { name := "next.txt", bytes := [0x62], readable := true }]
        { processed := 0, skipped := 0, records := [], diag := [] }
      = processFiles { rootAbs := ["root"], outAbs := ["out.txt"] } []
          [{ name := "next.txt", bytes := [0x62], readable := true }]
          { processed := 0, skipped := 1, records := [],
            diag := ["Error reading file /root/locked.txt: read error"] } := by
  have h := read_failure_skips_and_continues { rootAbs := ["root"], outAbs := ["out.txt"] } []
    "locked.txt" [0x61] { processed := 0, skipped := 0, records := [], diag := [] }
    [{ name := "next.txt", bytes := [0x62], readable := true }]
    (by decide) (by decide) (by decide)
  exact ⟨h.1, h.2⟩

/-- Claim C6: the process exits with code 1 exactly when `input_dir` is
missing or not a directory, in which case `combine_files` is never called
and no output file is written; in every other case (including runs with
per-file skips) the script falls off the end with exit code 0. -/
theorem exit_codes (cfg : Cfg) (obj : FSObject) :
    ((mainRun cfg obj).1 = 1 ↔ isdir obj = false) ∧
    (isdir obj = false → (mainRun cfg obj).2 = Option.none) ∧
    (isdir obj = true → (mainRun cfg obj).1 = 0) := by
  cases obj <;> simp [mainRun, isdir]

/-- Witness for C6: a missing input exits 1 with no output written; an
existing directory exits 0. -/
theorem exit_codes_witness :
    (mainRun { rootAbs := ["root"], outAbs := ["out.txt"] } FSObject.missing).1 = 1 ∧
    (mainRun { rootAbs := ["root"], outAbs := ["out.txt"] } FSObject.missing).2
      = Option.none ∧
    (mainRun { rootAbs := ["root"], outAbs := ["out.txt"] }
        (FSObject.directory [Entry.file "a.txt" [0x61] true])).1 = 0 :=
  ⟨(exit_codes { rootAbs := ["root"], outAbs := ["out.txt"] } FSObject.missing).1.mpr rfl,
   (exit_codes { rootAbs := ["root"], outAbs := ["out.txt"] } FSObject.missing).2.1 rfl,
   (exit_codes { rootAbs := ["root"], outAbs := ["out.txt"] }
     (FSObject.directory [Entry.file "a.txt" [0x61] true])).2.2 rfl⟩

/-- Counterexample to claim C7 as stated: with the plain meaning of
"filesystem entries" (files and directories alike), a run over a tree with
one non-ignored subdirectory `sub` holding one file `a.txt` encounters two
entries (`sub` and `a.txt`) but counts `processed + skipped = 1`: the
counters never count directory entries. -/
theorem counters_vs_entries_counterexample :
    (combine_files { rootAbs := ["root"], outAbs := ["out.txt"] }
        [Entry.dir "sub" [Entry.file "a.txt" [0x61] true]]).processed
      + (combine_files { rootAbs := ["root"], outAbs := ["out.txt"] }
        [Entry.dir "sub" [Entry.file "a.txt" [0x61] true]]).skipped
      ≠ entriesEncountered [Entry.dir "sub" [Entry.file "a.txt" [0x61] true]] ∧
    (combine_files { rootAbs := ["root"], outAbs := ["out.txt"] }
        [Entry.dir "sub" [Entry.file "a.txt" [0x61] true]]).processed = 1 ∧
    (combine_files { rootAbs := ["root"], outAbs := ["out.txt"] }
        [Entry.dir "sub" [Entry.file "a.txt" [0x61] true]]).skipped = 0 ∧
    entriesEncountered [Entry.dir "sub" [Entry.file "a.txt" [0x61] true]] = 2 := by
  have h1 : (combine_files { rootAbs := ["root"], outAbs := ["out.txt"] }
      [Entry.dir "sub" [Entry.file "a.txt" [0x61] true]]).processed = 1 := by
    simp [combine_files, walkDir, walkSubs, processFiles, processFilename, readFileNode,
          filesOf, filePathAbs, splitext_ext, extFromLastDot, lowerAscii,
          IGNORED_FILES, IGNORED_EXTENSIONS, IGNORED_DIRS]
  have h2 : (combine_files { rootAbs := ["root"], outAbs := ["out.txt"] }
      [Entry.dir "sub" [Entry.file "a.txt" [0x61] true]]).skipped = 0 := by
    simp [combine_files, walkDir, walkSubs, processFiles, processFilename, readFileNode,
          filesOf, filePathAbs, splitext_ext, extFromLastDot, lowerAscii,
          IGNORED_FILES, IGNORED_EXTENSIONS, IGNORED_DIRS]
  have h3 : entriesEncountered [Entry.dir "sub" [Entry.file "a.txt" [0x61] true]] = 2 := by
    simp [entriesEncountered, IGNORED_DIRS]
  refine ⟨?_, h1, h2, h3⟩
  rw [h1, h2, h3]
  decide

/-- Claim C7 (amended): at the end of every completed run,
`processed_files + skipped_files` equals the total number of FILES
(non-directory entries) encountered under non-ignored directories, files in
pruned directories being excluded entirely; directory entries themselves are
walked but never counted. -/
theorem counters_equal_files_encountered (cfg : Cfg) (tree : List Entry) :
    (combine_files cfg tree).processed + (combine_files cfg tree).skipped
      = filesEncountered tree := by
  unfold combine_files
  rw [walkDir_count]
  simp

/-- Counterexample to claim C8 as stated: the code decodes with
`errors="ignore"`, which silently DROPS undecodable bytes; it does not
substitute them. A file whose only byte is the invalid `0xFF` is read as the
empty string, whereas the substitution policy the claim describes
(`errors="replace"`, modelled by `utf8DecodeReplace`) would produce the
replacement character `U+FFFD`. -/
theorem decode_drops_rather_than_substitutes :
    utf8DecodeIgnore [0xFF] = [] ∧
    utf8DecodeReplace [0xFF] = [0xFFFD] ∧
    utf8DecodeIgnore [0xFF] ≠ utf8DecodeReplace [0xFF] ∧
    decodeToString [0xFF] = "" := by
  have h1 : utf8DecodeIgnore [0xFF] = [] := by
    simp [utf8DecodeIgnore]
  have h2 : utf8DecodeReplace [0xFF] = [0xFFFD] := by
    simp [utf8DecodeReplace]
  refine ⟨h1, h2, by rw [h1, h2]; decide, ?_⟩
  unfold decodeToString
  rw [h1]
  rfl

/-- Claim C8 (amended): for every candidate file, whatever its bytes —
including bytes that cannot be decoded under UTF-8 — the read never raises:
it returns the permissively decoded content with undecodable bytes silently
dropped (not substituted), and the file is still written to the output as a
processed record. -/
theorem undecodable_bytes_never_fail_read (cfg : Cfg) (rel : List String)
    (name : String) (bytes : List Nat) (st : RunState)
    (h1 : name ∉ IGNORED_FILES)
    (h2 : lowerAscii (splitext_ext name) ∉ IGNORED_EXTENSIONS)
    (h3 : filePathAbs cfg rel name ≠ cfg.outAbs) :
    readFileNode { name := name, bytes := bytes, readable := true }
      = Except.ok (decodeToString bytes) ∧
    processFilename cfg rel { name := name, bytes := bytes, readable := true } st
      = { st with processed := st.processed + 1,
                  records := st.records ++
                    [{ relSegs := rel ++ [name], content := decodeToString bytes }] } := by
  constructor
  · rfl
  · simp only [processFilename]
    rw [if_neg h1, if_neg h2, if_neg h3]
    rfl

/-- Witness for C8 (amended): a file containing the undecodable byte `0xFF`
followed by `a` is read successfully as `"a"` (the bad byte dropped) and
processed as a normal record. -/
theorem undecodable_bytes_never_fail_read_witness :
    readFileNode { name := "bad.txt", bytes := [0xFF, 0x61], readable := true }
      = Except.ok (decodeToString [0xFF, 0x61]) ∧
    decodeToString [0xFF, 0x61] = "a" ∧
    processFilename { rootAbs := ["root"], outAbs := ["out.txt"] } []
        { name := "bad.txt", bytes := [0xFF, 0x61], readable := true }
        { processed := 0, skipped := 0, records := [], diag := [] }
      = { processed := 1, skipped := 0,
          records := [{ relSegs := ["bad.txt"], content := decodeToString [0xFF, 0x61] }],
          diag := [] } := by
  have h := undecodable_bytes_never_fail_read { rootAbs := ["root"], outAbs := ["out.txt"] } []
    "bad.txt" [0xFF, 0x61] { processed := 0, skipped := 0, records := [], diag := [] }
    (by decide) (by decide) (by decide)
  have hc : decodeToString [0xFF, 0x61] = "a" := by
    have hdec : utf8DecodeIgnore [0xFF, 0x61] = [0x61] := by
      simp [utf8DecodeIgnore]
    unfold decodeToString
    rw [hdec]
    rfl
  exact ⟨h.1, hc, h.2⟩

/-- Claim C9: the directory-name filter applies only to directory names,
never to file names: a regular file whose name is in `IGNORED_DIRS` (for
example a file named `build`) but in neither `IGNORED_FILES` nor, by
extension, `IGNORED_EXTENSIONS`, and which is not the output file, is a
candidate and is processed — `processFilename` never consults
`IGNORED_DIRS`. -/
theorem dir_filter_not_applied_to_files (cfg : Cfg) (rel : List String)
    (name : String) (bytes : List Nat) (st : RunState)
    (hdir : name ∈ IGNORED_DIRS)
    (h1 : name ∉ IGNORED_FILES)
    (h2 : lowerAscii (splitext_ext name) ∉ IGNORED_EXTENSIONS)
    (h3 : filePathAbs cfg rel name ≠ cfg.outAbs) :
    processFilename cfg rel { name := name, bytes := bytes, readable := true } st
      = { st with processed := st.processed + 1,
                  records := st.records ++
                    [{ relSegs := rel ++ [name], content := decodeToString bytes }] } := by
  simp only [processFilename]
  rw [if_neg h1, if_neg h2, if_neg h3]
  rfl

/-- Witness for C9: a regular file named `build` is processed even though
`build` is in the ignored-directories set. -/
theorem dir_filter_not_applied_to_files_witness :
    "build" ∈ IGNORED_DIRS ∧
    processFilename { rootAbs := ["root"], outAbs := ["out.txt"] } []
        { name := "build", bytes := [0x61], readable := true }
        { processed := 0, skipped := 0, records := [], diag := [] }
      = { processed := 1, skipped := 0,
          records := [{ relSegs := ["build"], content := decodeToString [0x61] }],
          diag := [] } :=
  ⟨by decide,
   dir_filter_not_applied_to_files { rootAbs := ["root"], outAbs := ["out.txt"] } []
     "build" [0x61] { processed := 0, skipped := 0, records := [], diag := [] }
     (by decide) (by decide) (by decide) (by decide)⟩

/-- Claim C10: a file whose name is a single leading dot followed by a
dot-free segment that (with the dot) is in the ignored-extensions set — such
as a file named exactly `.log` — has an empty `splitext` extension, so the
extension filter does not skip it and it is processed unless some other rule
excludes it. -/
theorem leading_dot_name_empty_extension (cfg : Cfg) (rel : List String)
    (name : String) (rest : List Char) (bytes : List Nat) (st : RunState)
    (hd : name.data = '.' :: rest) (hnd : '.' ∉ rest)
    (hseg : name ∈ IGNORED_EXTENSIONS)
    (h1 : name ∉ IGNORED_FILES)
    (h3 : filePathAbs cfg rel name ≠ cfg.outAbs) :
    splitext_ext name = "" ∧
    processFilename cfg rel { name := name, bytes := bytes, readable := true } st
      = { st with processed := st.processed + 1,
                  records := st.records ++
                    [{ relSegs := rel ++ [name], content := decodeToString bytes }] } := by
  have hext : splitext_ext name = "" := splitext_ext_of_leading_dot name rest hd hnd
  have h2 : lowerAscii (splitext_ext name) ∉ IGNORED_EXTENSIONS := by
    rw [hext]
    decide
  refine ⟨hext, ?_⟩
  simp only [processFilename]
  rw [if_neg h1, if_neg h2, if_neg h3]
  rfl

/-- Witness for C10: a file named exactly `.log` is processed even though
`.log` is in the ignored-extensions set, because its computed extension is
empty. -/
theorem leading_dot_name_empty_extension_witness :
    splitext_ext ".log" = "" ∧
    processFilename { rootAbs := ["root"], outAbs := ["out.txt"] } []
        { name := ".log", bytes := [0x61], readable := true }
        { processed := 0, skipped := 0, records := [], diag := [] }
      = { processed := 1, skipped := 0,
          records := [{ relSegs := [".log"], content := decodeToString [0x61] }],
          diag := [] } := by
  have h := leading_dot_name_empty_extension { rootAbs := ["root"], outAbs := ["out.txt"] } []
    ".log" ['l', 'o', 'g'] [0x61] { processed := 0, skipped := 0, records := [], diag := [] }
    rfl (by decide) (by decide) (by decide) (by decide)
  exact ⟨h.1, h.2⟩
